import Mathlib

/-!
Shallow embedding of the `datetime` Rust library (`src/lib.rs`): a lazy
seconds-since-epoch to calendar date/time converter.

The pure calendar arithmetic (`DtCache::from_secs`, `is_leap_year`,
`get_day`) is translated directly from the source.  Rust's `usize` is
modelled as `Nat` (the library never subtracts below zero on its stated
non-negative domain, and no operation approaches `2^64`).  The
`unreachable!()` arm of `get_day` is modelled by `Option`: `none` is a
panic.  The lazy cell comes from the external `cache` crate whose source
is not part of this repository; it is modelled from the specification's
description of the Lazy Value Cache (see `Cache` below).  `SystemTime`
is the standard library's; it is modelled as a signed second offset from
the epoch, with `duration_since` failing on negative offsets, as the
specification's external-interface section describes.
-/

/-- an enum representing each day of the week -/
inductive Day where
  | Sunday
  | Monday
  | Tuesday
  | Wednesday
  | Thursday
  | Friday
  | Saturday
deriving DecidableEq, Repr

/-- an enum representing each month of the year -/
inductive Month where
  | January
  | February
  | March
  | April
  | May
  | June
  | July
  | August
  | September
  | October
  | November
  | December
deriving DecidableEq, Repr

/-- cache payload: the computed date and time fields -/
structure DtCache where
  year : Nat
  month : Month
  day : Day
  date : Nat
  hour : Nat
  minute : Nat
  second : Nat
deriving DecidableEq, Repr

/-- `is_leap_year` from the source, verbatim. -/
def is_leap_year (year : Nat) : Bool :=
  if year % 400 == 0 then
    true
  else if year % 100 == 0 then
    false
  else if year % 4 == 0 then
    true
  else
    false

/-- seconds in a given year: the body of the closure mapped over `(1970..)`
in `DtCache::from_secs` (`days_per_year * 24 * 60 * 60`). -/
def secPerYear (year : Nat) : Nat :=
  (if is_leap_year year then 366 else 365) * 24 * 60 * 60

/-- The year-resolution loop of `DtCache::from_secs`: starting from `year`
(1970 at the call site) with remaining seconds `x`, subtract each whole
year's seconds until the remainder is smaller than the current year's
total; returns `(date_year, remainder)`. -/
def yearLoop (x : Nat) (year : Nat) : Nat × Nat :=
  if x < secPerYear year then (year, x)
  else yearLoop (x - secPerYear year) (year + 1)
termination_by x
decreasing_by
  have hpos : 0 < secPerYear year := by
    unfold secPerYear
    cases is_leap_year year <;> simp
  omega

/-- the month table of `DtCache::from_secs`, verbatim (February depends on
the already-resolved year). -/
def monthTable (date_year : Nat) : List (Month × Nat) :=
  [ (Month.January, 31),
    (Month.February, if is_leap_year date_year then 29 else 28),
    (Month.March, 31),
    (Month.April, 30),
    (Month.May, 31),
    (Month.June, 30),
    (Month.July, 31),
    (Month.August, 31),
    (Month.September, 30),
    (Month.October, 31),
    (Month.November, 30),
    (Month.December, 31) ]

/-- The month-resolution loop of `DtCache::from_secs`: walk the table,
subtracting `days * 24 * 60 * 60` per month until the remainder is smaller;
`cur` is the value `date_month` holds if no `break` fires (`January` at the
call site).  Returns `(date_month, remainder)`. -/
def monthLoop : List (Month × Nat) → Nat → Month → Month × Nat
  | [], x, cur => (cur, x)
  | (month, days) :: rest, x, cur =>
    let sec_per_month := days * 24 * 60 * 60
    if x < sec_per_month then (month, x)
    else monthLoop rest (x - sec_per_month) cur

/-- `get_day` from the source.  The final `unreachable!()` arm is modelled
as `none` (a panic). -/
def get_day (time : Nat) : Option Day :=
  let day := time / 24 / 60 / 60
  let day := day + 4
  let day := day % 7
  match day with
  | 0 => some Day.Sunday
  | 1 => some Day.Monday
  | 2 => some Day.Tuesday
  | 3 => some Day.Wednesday
  | 4 => some Day.Thursday
  | 5 => some Day.Friday
  | 6 => some Day.Saturday
  | _ => none

/-- `DtCache::from_secs` from the source: year loop, month loop, then
day/hour/minute/second decomposition; `get_day` runs on the original
`secs`.  `none` propagates a (never-occurring) `get_day` panic. -/
def DtCache.from_secs (secs : Nat) : Option DtCache :=
  let yr := yearLoop secs 1970
  let date_year := yr.1
  let x := yr.2
  let mr := monthLoop (monthTable date_year) x Month.January
  let date_month := mr.1
  let x := mr.2
  let day := x / 24 / 60 / 60
  let x := x - day * 24 * 60 * 60
  let hour := x / 60 / 60
  let x := x - hour * 60 * 60
  let minute := x / 60
  let x := x - minute * 60
  (get_day secs).map fun date_day =>
    { year := date_year
      month := date_month
      day := date_day
      date := day + 1
      hour := hour
      minute := minute
      second := x }

/-- Modelled from the spec: the external `cache` crate's `Cache<T>` (its
source is not in this repository).  The spec's Lazy Value Cache "holds
exactly one of two states — Pending (an unevaluated zero-argument producer
of the payload type) or Ready (the computed payload)". -/
inductive Cache (T : Type) where
  | Pending (producer : Unit → T)
  | Ready (value : T)

/-- Modelled from the spec: `Cache::new` stores the producer unevaluated
(Pending); "constructing the cache does no work". -/
def Cache.new {T : Type} (producer : Unit → T) : Cache T :=
  Cache.Pending producer

/-- Modelled from the spec: `Cache::get`.  Interior mutability is made
explicit: the result is the returned value, the cache's state after the
call, and how many times the producer was invoked during this call
("on first invocation, invokes the producer exactly once, stores the
result ...; on every subsequent invocation, returns ... the same stored
value without re-invoking anything"). -/
def Cache.get {T : Type} : Cache T → T × Cache T × Nat
  | Cache.Pending p => (p (), Cache.Ready (p ()), 1)
  | Cache.Ready v => (v, Cache.Ready v, 0)

/-- whether a cache is still in the unevaluated state -/
def Cache.isPending {T : Type} : Cache T → Bool
  | Cache.Pending _ => true
  | Cache.Ready _ => false

/-- `DateTime` from the source: the raw seconds count plus the lazy cell
whose producer closes over that count. -/
structure DateTime where
  secs : Nat
  cache : Cache (Option DtCache)

/-- `DateTime::from_secs` from the source. -/
def DateTime.from_secs (secs : Nat) : DateTime :=
  { secs := secs
    cache := Cache.new fun _ => DtCache.from_secs secs }

/-- `DateTime::year`.  Accessors go through the cache; the result carries
the value (`none` = panic), the `DateTime` with its cache state after the
call, and the number of producer invocations the call performed. -/
def DateTime.year (d : DateTime) : Option Nat × DateTime × Nat :=
  let r := d.cache.get
  (r.1.map DtCache.year, { d with cache := r.2.1 }, r.2.2)

/-- `DateTime::month` -/
def DateTime.month (d : DateTime) : Option Month × DateTime × Nat :=
  let r := d.cache.get
  (r.1.map DtCache.month, { d with cache := r.2.1 }, r.2.2)

/-- `DateTime::day` -/
def DateTime.day (d : DateTime) : Option Day × DateTime × Nat :=
  let r := d.cache.get
  (r.1.map DtCache.day, { d with cache := r.2.1 }, r.2.2)

/-- `DateTime::date` -/
def DateTime.date (d : DateTime) : Option Nat × DateTime × Nat :=
  let r := d.cache.get
  (r.1.map DtCache.date, { d with cache := r.2.1 }, r.2.2)

/-- `DateTime::hour` -/
def DateTime.hour (d : DateTime) : Option Nat × DateTime × Nat :=
  let r := d.cache.get
  (r.1.map DtCache.hour, { d with cache := r.2.1 }, r.2.2)

/-- `DateTime::minute` -/
def DateTime.minute (d : DateTime) : Option Nat × DateTime × Nat :=
  let r := d.cache.get
  (r.1.map DtCache.minute, { d with cache := r.2.1 }, r.2.2)

/-- `DateTime::second` -/
def DateTime.second (d : DateTime) : Option Nat × DateTime × Nat :=
  let r := d.cache.get
  (r.1.map DtCache.second, { d with cache := r.2.1 }, r.2.2)

/-- the three-letter weekday abbreviations of `as_time_stamp` -/
def dayAbbrev : Day → String
  | Day.Sunday => "Sun"
  | Day.Monday => "Mon"
  | Day.Tuesday => "Tue"
  | Day.Wednesday => "Wed"
  | Day.Thursday => "Thu"
  | Day.Friday => "Fri"
  | Day.Saturday => "Sat"

/-- the three-letter month abbreviations of `as_time_stamp` -/
def monthAbbrev : Month → String
  | Month.January => "Jan"
  | Month.February => "Feb"
  | Month.March => "Mar"
  | Month.April => "Apr"
  | Month.May => "May"
  | Month.June => "Jun"
  | Month.July => "Jul"
  | Month.August => "Aug"
  | Month.September => "Sep"
  | Month.October => "Oct"
  | Month.November => "Nov"
  | Month.December => "Dec"

/-- Rust's `{:02}` format: zero-pad to two digits (numbers of three or
more digits print in full). -/
def pad2 (n : Nat) : String :=
  if n < 10 then "0" ++ toString n else toString n

/-- the format string of `as_time_stamp`:
`"{} {} {}, {}  {}:{:02}:{:02} (UTC)"` applied to the cached fields -/
def DtCache.time_stamp (c : DtCache) : String :=
  dayAbbrev c.day ++ " " ++ monthAbbrev c.month ++ " " ++ toString c.date
    ++ ", " ++ toString c.year ++ "  " ++ toString c.hour ++ ":"
    ++ pad2 c.minute ++ ":" ++ pad2 c.second ++ " (UTC)"

/-- `DateTime::as_time_stamp`: all seven field reads hit the same cache;
the net effect is one `get` (computing on first use) followed by the pure
formatting of the cached fields. -/
def DateTime.as_time_stamp (d : DateTime) : Option String × DateTime × Nat :=
  let r := d.cache.get
  (r.1.map DtCache.time_stamp, { d with cache := r.2.1 }, r.2.2)

/-- Modelled from the spec: `std::time::SystemTime`, an opaque external
time-source value; represented by its signed offset in whole seconds from
`UNIX_EPOCH` (out-of-scope sub-second precision dropped). -/
structure SystemTime where
  secsSinceEpoch : Int

/-- Modelled from the spec: `SystemTime::duration_since(UNIX_EPOCH)`
"surfaces a failure if the value is before the epoch", otherwise reports
the non-negative second count. -/
def SystemTime.duration_since_epoch (t : SystemTime) : Except Unit Nat :=
  if 0 ≤ t.secsSinceEpoch then Except.ok t.secsSinceEpoch.toNat
  else Except.error ()

/-- result of a Rust function that may panic: `panicked` models an
`unwrap` on an error (or any other panic) -/
inductive PanicOr (α : Type) where
  | panicked
  | ok (val : α)

/-- Rust's `Result::unwrap`: the value on `Ok`, a panic on `Err`. -/
def unwrapOr {ε α : Type} : Except ε α → PanicOr α
  | Except.ok a => PanicOr.ok a
  | Except.error _ => PanicOr.panicked

/-- `impl From<SystemTime> for DateTime` from the source:
`time.duration_since(UNIX_EPOCH).unwrap().as_secs()`, then `from_secs`.
The `unwrap` panics when `duration_since` fails. -/
def DateTime.fromSystemTime (time : SystemTime) : PanicOr DateTime :=
  match unwrapOr time.duration_since_epoch with
  | PanicOr.ok secs => PanicOr.ok (DateTime.from_secs secs)
  | PanicOr.panicked => PanicOr.panicked

/-- `impl Add<&DateTime> for DateTime` from the source: a new instance
from the summed seconds; `other` is taken by shared reference in Rust and
is not modified (purity is intrinsic in this embedding). -/
def DateTime.add (d : DateTime) (other : DateTime) : DateTime :=
  DateTime.from_secs (d.secs + other.secs)

/-- `impl AddAssign<&DateTime> for DateTime` from the source: sum the
seconds and replace the cache with a fresh one over the new count. -/
def DateTime.add_assign (d : DateTime) (other : DateTime) : DateTime :=
  let secs := d.secs + other.secs
  { secs := secs
    cache := Cache.new fun _ => DtCache.from_secs secs }

/-- Specification-side measurement: the days of each month of a given
year under the source's table (February adjusted by the leap-year
rule). -/
def days_in_month (year : Nat) : Month → Nat
  | Month.January => 31
  | Month.February => if is_leap_year year then 29 else 28
  | Month.March => 31
  | Month.April => 30
  | Month.May => 31
  | Month.June => 30
  | Month.July => 31
  | Month.August => 31
  | Month.September => 30
  | Month.October => 31
  | Month.November => 30
  | Month.December => 31

/-- Specification-side measurement: total seconds covered by a month
table (each entry contributes `days * 86400`). -/
def listSecs : List (Month × Nat) → Nat
  | [] => 0
  | (_, d) :: rest => d * 86400 + listSecs rest

/-- Specification-side measurement: the seconds in every whole month
listed before the given month — the prefix of the table up to (and
excluding) the first entry for that month, each contributing
`days * 86400`. -/
def prefixSecs : List (Month × Nat) → Month → Nat
  | [], _ => 0
  | (mo, d) :: rest, m => if mo = m then 0 else d * 86400 + prefixSecs rest m

/-- the seven weekdays in the index order the spec states
(0 = Sunday, ..., 6 = Saturday) -/
def weekdayNames : List Day :=
  [Day.Sunday, Day.Monday, Day.Tuesday, Day.Wednesday, Day.Thursday,
   Day.Friday, Day.Saturday]

/-- The spec's independent description of the weekday rule: index
`((s / 86400) + 4) mod 7` into the Sunday-first list.  Stated from the
spec's words, to be compared with the source's `get_day`. -/
def specWeekday (s : Nat) : Day :=
  weekdayNames.getD ((s / 86400 + 4) % 7) Day.Sunday

theorem secPerYear_pos (year : Nat) : 0 < secPerYear year := by
  unfold secPerYear
  cases is_leap_year year <;> simp

theorem secPerYear_ge (year : Nat) : 365 * 86400 ≤ secPerYear year := by
  unfold secPerYear
  cases is_leap_year year <;> norm_num

/-- Invariant of the year-resolution loop: the seconds of the whole
years consumed plus the remainder reconstruct the input, the remainder
is strictly below the resolved year's size, and the resolved year is at
least the starting year. -/
theorem yearLoop_spec (x : Nat) (year : Nat) :
    (∑ i ∈ Finset.Ico year (yearLoop x year).1, secPerYear i) + (yearLoop x year).2 = x ∧
    (yearLoop x year).2 < secPerYear (yearLoop x year).1 ∧
    year ≤ (yearLoop x year).1 := by
  induction x using Nat.strong_induction_on generalizing year with
  | _ x ih =>
    rw [yearLoop]
    by_cases h : x < secPerYear year
    · simp [h]
    · have hpos := secPerYear_pos year
      have hlt : x - secPerYear year < x := by omega
      obtain ⟨h1, h2, h3⟩ := ih (x - secPerYear year) hlt (year + 1)
      simp only [if_neg h]
      refine ⟨?_, h2, by omega⟩
      rw [Finset.sum_eq_sum_Ico_succ_bot (by omega :
        year < (yearLoop (x - secPerYear year) (year + 1)).1)]
      omega

theorem yearLoop_spec_eq (x year Y r : Nat) (h : yearLoop x year = (Y, r)) :
    (∑ i ∈ Finset.Ico year Y, secPerYear i) + r = x ∧
    r < secPerYear Y ∧ year ≤ Y := by
  have hs := yearLoop_spec x year
  rw [h] at hs
  exact hs

/-- Invariant of the month-resolution loop, for any table whose months
are distinct and whose total exceeds the remainder: the resolved month
is in the table with some length `d`, the prefix seconds plus the new
remainder reconstruct the input, and the remainder is below `d` days. -/
theorem monthLoop_spec (l : List (Month × Nat)) (cur : Month) :
    ∀ x : Nat, (l.map Prod.fst).Nodup → x < listSecs l →
    ∃ d : Nat, ((monthLoop l x cur).1, d) ∈ l ∧
      prefixSecs l (monthLoop l x cur).1 + (monthLoop l x cur).2 = x ∧
      (monthLoop l x cur).2 < d * 86400 := by
  induction l with
  | nil =>
    intro x hnd hx
    simp [listSecs] at hx
  | cons hd rest ih =>
    obtain ⟨mo, days⟩ := hd
    intro x hnd hx
    by_cases h : x < days * 24 * 60 * 60
    · refine ⟨days, by simp [monthLoop, h], ?_, ?_⟩
      · simp [monthLoop, h, prefixSecs]
      · simp only [monthLoop, if_pos h]
        omega
    · have hrec : monthLoop ((mo, days) :: rest) x cur
          = monthLoop rest (x - days * 24 * 60 * 60) cur := by
        simp [monthLoop, h]
      simp only [List.map_cons, List.nodup_cons, List.mem_map] at hnd
      have hnd1 : ∀ dd : Nat, (mo, dd) ∉ rest := by
        intro dd hdd
        exact hnd.1 ⟨(mo, dd), hdd, rfl⟩
      have hx2 : x - days * 24 * 60 * 60 < listSecs rest := by
        simp [listSecs] at hx
        omega
      obtain ⟨d, hmem, hsum, hlt⟩ := ih (x - days * 24 * 60 * 60) hnd.2 hx2
      rw [hrec]
      refine ⟨d, List.mem_cons_of_mem _ hmem, ?_, hlt⟩
      have hne : mo ≠ (monthLoop rest (x - days * 24 * 60 * 60) cur).1 := by
        intro heq
        exact hnd1 d (heq ▸ hmem)
      simp only [prefixSecs, if_neg hne]
      omega

theorem monthLoop_spec_eq (l : List (Month × Nat)) (cur : Month) (x : Nat)
    (M : Month) (r : Nat) (h : monthLoop l x cur = (M, r))
    (hnd : (l.map Prod.fst).Nodup) (hx : x < listSecs l) :
    ∃ d : Nat, (M, d) ∈ l ∧ prefixSecs l M + r = x ∧ r < d * 86400 := by
  have hs := monthLoop_spec l cur x hnd hx
  rw [h] at hs
  exact hs

theorem monthTable_fst (y : Nat) : (monthTable y).map Prod.fst =
    [Month.January, Month.February, Month.March, Month.April, Month.May,
     Month.June, Month.July, Month.August, Month.September, Month.October,
     Month.November, Month.December] := rfl

theorem monthTable_nodup (y : Nat) : ((monthTable y).map Prod.fst).Nodup := by
  rw [monthTable_fst]
  decide

theorem listSecs_monthTable (y : Nat) : listSecs (monthTable y) = secPerYear y := by
  unfold secPerYear
  cases h : is_leap_year y <;> simp [monthTable, listSecs, h]

theorem monthTable_days (y : Nat) (m : Month) (d : Nat)
    (h : (m, d) ∈ monthTable y) : d = days_in_month y m := by
  fin_cases h <;> rfl

theorem is_leap_year_iff (y : Nat) :
    is_leap_year y = true ↔ (y % 400 = 0 ∨ (y % 100 ≠ 0 ∧ y % 4 = 0)) := by
  unfold is_leap_year
  split_ifs with h1 h2 h3 <;> simp_all

/-- `get_day` never takes the `unreachable!()` arm and agrees with the
spec's weekday rule. -/
theorem get_day_eq (t : Nat) : get_day t = some (specWeekday t) := by
  unfold get_day specWeekday
  dsimp only
  rw [show t / 24 / 60 / 60 = t / 86400 from by omega]
  have hlt : (t / 86400 + 4) % 7 < 7 := Nat.mod_lt _ (by omega)
  set m := (t / 86400 + 4) % 7 with hm
  interval_cases m <;> rfl

/-- Characterization of `DtCache.from_secs` by the two loop results. -/
theorem from_secs_some (secs Y r1 : Nat) (M : Month) (r2 : Nat) (dd : Day)
    (hY : yearLoop secs 1970 = (Y, r1))
    (hM : monthLoop (monthTable Y) r1 Month.January = (M, r2))
    (hD : get_day secs = some dd) :
    DtCache.from_secs secs = some
      { year := Y, month := M, day := dd,
        date := r2 / 24 / 60 / 60 + 1,
        hour := (r2 - r2 / 24 / 60 / 60 * 24 * 60 * 60) / 60 / 60,
        minute := (r2 - r2 / 24 / 60 / 60 * 24 * 60 * 60
          - (r2 - r2 / 24 / 60 / 60 * 24 * 60 * 60) / 60 / 60 * 60 * 60) / 60,
        second := r2 - r2 / 24 / 60 / 60 * 24 * 60 * 60
          - (r2 - r2 / 24 / 60 / 60 * 24 * 60 * 60) / 60 / 60 * 60 * 60
          - (r2 - r2 / 24 / 60 / 60 * 24 * 60 * 60
             - (r2 - r2 / 24 / 60 / 60 * 24 * 60 * 60) / 60 / 60 * 60 * 60) / 60 * 60 } := by
  unfold DtCache.from_secs
  rw [hY]
  dsimp only
  rw [hM, hD]
  rfl

theorem from_secs_total (secs : Nat) :
    ∃ c : DtCache, DtCache.from_secs secs = some c := by
  rcases hY : yearLoop secs 1970 with ⟨Y, r1⟩
  rcases hM : monthLoop (monthTable Y) r1 Month.January with ⟨M, r2⟩
  exact ⟨_, from_secs_some secs Y r1 M r2 (specWeekday secs) hY hM (get_day_eq secs)⟩

set_option maxRecDepth 2000 in
theorem yearLoop_eval_842282624 : yearLoop 842282624 1970 = (1996, 21828224) := by
  simp [yearLoop, secPerYear, is_leap_year]

set_option maxRecDepth 2000 in
theorem yearLoop_eval_358024679 : yearLoop 358024679 1970 = (1981, 10869479) := by
  simp [yearLoop, secPerYear, is_leap_year]

theorem yearLoop_eval_0 : yearLoop 0 1970 = (1970, 0) := by
  simp [yearLoop, secPerYear, is_leap_year]

theorem from_secs_eval_842282624 : DtCache.from_secs 842282624 =
    some { year := 1996, month := Month.September, day := Day.Monday,
           date := 9, hour := 15, minute := 23, second := 44 } := by
  rw [DtCache.from_secs, yearLoop_eval_842282624]
  decide

theorem from_secs_eval_358024679 : DtCache.from_secs 358024679 =
    some { year := 1981, month := Month.May, day := Day.Wednesday,
           date := 6, hour := 19, minute := 17, second := 59 } := by
  rw [DtCache.from_secs, yearLoop_eval_358024679]
  decide

theorem from_secs_eval_0 : DtCache.from_secs 0 =
    some { year := 1970, month := Month.January, day := Day.Thursday,
           date := 1, hour := 0, minute := 0, second := 0 } := by
  rw [DtCache.from_secs, yearLoop_eval_0]
  decide

theorem year_unfold (s : Nat) :
    (DateTime.from_secs s).year.1 = (DtCache.from_secs s).map DtCache.year := rfl

theorem month_unfold (s : Nat) :
    (DateTime.from_secs s).month.1 = (DtCache.from_secs s).map DtCache.month := rfl

theorem day_unfold (s : Nat) :
    (DateTime.from_secs s).day.1 = (DtCache.from_secs s).map DtCache.day := rfl

theorem date_unfold (s : Nat) :
    (DateTime.from_secs s).date.1 = (DtCache.from_secs s).map DtCache.date := rfl

theorem hour_unfold (s : Nat) :
    (DateTime.from_secs s).hour.1 = (DtCache.from_secs s).map DtCache.hour := rfl

theorem minute_unfold (s : Nat) :
    (DateTime.from_secs s).minute.1 = (DtCache.from_secs s).map DtCache.minute := rfl

theorem second_unfold (s : Nat) :
    (DateTime.from_secs s).second.1 = (DtCache.from_secs s).map DtCache.second := rfl

theorem time_stamp_unfold (s : Nat) :
    (DateTime.from_secs s).as_time_stamp.1
      = (DtCache.from_secs s).map DtCache.time_stamp := rfl

/-- C1: for every non-negative integer `s`, the calendar conversion
round-trips — the seconds in every whole year from 1970 up to but
excluding the resolved year, plus the seconds in every whole month of the
resolved year before the resolved month, plus
`(day-of-month - 1)*86400 + hour*3600 + minute*60 + second`, re-sum to
exactly `s`. -/
theorem claim_C1 (s : Nat) (c : DtCache) (h : DtCache.from_secs s = some c) :
    (∑ y ∈ Finset.Ico 1970 c.year, secPerYear y)
      + prefixSecs (monthTable c.year) c.month
      + (c.date - 1) * 86400 + c.hour * 3600 + c.minute * 60 + c.second = s := by
  rcases hY : yearLoop s 1970 with ⟨Y, r1⟩
  rcases hM : monthLoop (monthTable Y) r1 Month.January with ⟨M, r2⟩
  have hsome := from_secs_some s Y r1 M r2 (specWeekday s) hY hM (get_day_eq s)
  rw [h] at hsome
  have hc := Option.some.inj hsome
  subst hc
  have hy2 := yearLoop_spec_eq s 1970 Y r1 hY
  have hx1 : r1 < listSecs (monthTable Y) := by
    rw [listSecs_monthTable]
    exact hy2.2.1
  obtain ⟨d, hmem, hpre, hlt⟩ :=
    monthLoop_spec_eq (monthTable Y) Month.January r1 M r2 hM (monthTable_nodup Y) hx1
  have hsum := hy2.1
  dsimp only
  omega

/-- Witness for C1: the round-trip identity instantiated at
`s = 842282624` (whose fields are 1996, September, day 9, 15:23:44). -/
theorem claim_C1_witness :
    (∑ y ∈ Finset.Ico 1970 1996, secPerYear y)
      + prefixSecs (monthTable 1996) Month.September
      + (9 - 1) * 86400 + 15 * 3600 + 23 * 60 + 44 = 842282624 :=
  claim_C1 842282624
    { year := 1996, month := Month.September, day := Day.Monday,
      date := 9, hour := 15, minute := 23, second := 44 }
    from_secs_eval_842282624

/-- C2: `from_secs 842282624` yields year 1996, month September, weekday
Monday, day-of-month 9, hour 15, minute 23, second 44, and its
`as_time_stamp` is exactly `"Mon Sep 9, 1996  15:23:44 (UTC)"`. -/
theorem claim_C2 :
    (DateTime.from_secs 842282624).year.1 = some 1996 ∧
    (DateTime.from_secs 842282624).month.1 = some Month.September ∧
    (DateTime.from_secs 842282624).day.1 = some Day.Monday ∧
    (DateTime.from_secs 842282624).date.1 = some 9 ∧
    (DateTime.from_secs 842282624).hour.1 = some 15 ∧
    (DateTime.from_secs 842282624).minute.1 = some 23 ∧
    (DateTime.from_secs 842282624).second.1 = some 44 ∧
    (DateTime.from_secs 842282624).as_time_stamp.1
      = some "Mon Sep 9, 1996  15:23:44 (UTC)" := by
  refine ⟨?_, ?_, ?_, ?_, ?_, ?_, ?_, ?_⟩
  all_goals
    simp only [year_unfold, month_unfold, day_unfold, date_unfold, hour_unfold,
      minute_unfold, second_unfold, time_stamp_unfold, from_secs_eval_842282624,
      Option.map_some']
  all_goals decide

/-- C3: the conversion producer runs at most once per `DateTime`.
Constructing via `from_secs` stores the producer unevaluated (Pending —
no conversion work); the first access through any accessor or
`as_time_stamp` invokes the producer exactly once, moving the cache to
Ready; every later `get` on a Ready cache returns the same memoized
value with zero further producer invocations. -/
theorem claim_C3 :
    (∀ s : Nat,
      (DateTime.from_secs s).cache = Cache.Pending fun _ => DtCache.from_secs s) ∧
    (∀ (T : Type) (p : Unit → T),
      Cache.get (Cache.new p) = (p (), Cache.Ready (p ()), 1)) ∧
    (∀ (T : Type) (c : Cache T), (c.get.2.1).get = (c.get.1, c.get.2.1, 0)) ∧
    (∀ s : Nat,
      (DateTime.from_secs s).year.2.2 = 1 ∧
      (DateTime.from_secs s).as_time_stamp.2.2 = 1 ∧
      ((DateTime.from_secs s).year.2.1).month.2.2 = 0 ∧
      ((DateTime.from_secs s).year.2.1).month.1
        = (DtCache.from_secs s).map DtCache.month ∧
      ((DateTime.from_secs s).year.2.1).year.1 = (DateTime.from_secs s).year.1) := by
  refine ⟨fun s => rfl, fun T p => rfl, ?_, fun s => ⟨rfl, rfl, rfl, rfl, rfl⟩⟩
  intro T c
  cases c <;> rfl

/-- C4 counterexample: converting the pre-epoch `SystemTime` at offset
-1 second makes `From<SystemTime>` panic (the `unwrap` trap), refuting
the claim that the failure is surfaced as a recoverable success/failure
result rather than a trap. -/
theorem claim_C4_counterexample :
    DateTime.fromSystemTime { secsSinceEpoch := -1 } = PanicOr.panicked := rfl

/-- C4 (amended): converting a `SystemTime` before the epoch makes the
conversion entry point panic — `duration_since(UNIX_EPOCH)` fails and
the `unwrap` traps, so the failure is not returned to the caller as a
recoverable result; for values at or after the epoch the conversion
succeeds and delegates to `from_secs`. -/
theorem claim_C4 (t : SystemTime) :
    (t.secsSinceEpoch < 0 → DateTime.fromSystemTime t = PanicOr.panicked) ∧
    (0 ≤ t.secsSinceEpoch →
      DateTime.fromSystemTime t
        = PanicOr.ok (DateTime.from_secs t.secsSinceEpoch.toNat)) := by
  unfold DateTime.fromSystemTime SystemTime.duration_since_epoch unwrapOr
  constructor
  · intro h
    rw [if_neg (by omega)]
  · intro h
    rw [if_pos h]

/-- Witness for C4: the amended behavior at the concrete offsets -1
(panic) and 5 (success, delegating to `from_secs 5`). -/
theorem claim_C4_witness :
    DateTime.fromSystemTime { secsSinceEpoch := -1 } = PanicOr.panicked ∧
    DateTime.fromSystemTime { secsSinceEpoch := 5 }
      = PanicOr.ok (DateTime.from_secs 5) :=
  ⟨(claim_C4 { secsSinceEpoch := -1 }).1 (by norm_num),
   (claim_C4 { secsSinceEpoch := 5 }).2 (by norm_num)⟩

/-- C5: after `x += &y`, `x` equals a fresh `DateTime::from_secs` of the
summed seconds — whatever cache state `x` had before (even an already
computed Ready cache) is discarded for a fresh Pending cache over the new
count, so every subsequent accessor and `as_time_stamp` agree with the
fresh value and no stale cached fields can be returned. -/
theorem claim_C5 (secs0 : Nat) (cache0 : Cache (Option DtCache)) (other : DateTime) :
    DateTime.add_assign { secs := secs0, cache := cache0 } other
      = DateTime.from_secs (secs0 + other.secs) ∧
    (DateTime.add_assign { secs := secs0, cache := cache0 } other).secs
      = secs0 + other.secs ∧
    (DateTime.add_assign { secs := secs0, cache := cache0 } other).cache.isPending
      = true :=
  ⟨rfl, rfl, rfl⟩

/-- C6: `from_secs a + &from_secs b` equals `from_secs (a + b)` (hence
every observation agrees; the right operand is untouched — the embedding
of `add` is pure), and concretely
`from_secs 123456789 + from_secs 234567890` has year 1981, month May,
weekday Wednesday, day 6, hour 19, minute 17, second 59. -/
theorem claim_C6 :
    (∀ a b : Nat,
      DateTime.add (DateTime.from_secs a) (DateTime.from_secs b)
        = DateTime.from_secs (a + b)) ∧
    ((DateTime.from_secs 123456789).add (DateTime.from_secs 234567890)).year.1
      = some 1981 ∧
    ((DateTime.from_secs 123456789).add (DateTime.from_secs 234567890)).month.1
      = some Month.May ∧
    ((DateTime.from_secs 123456789).add (DateTime.from_secs 234567890)).day.1
      = some Day.Wednesday ∧
    ((DateTime.from_secs 123456789).add (DateTime.from_secs 234567890)).date.1
      = some 6 ∧
    ((DateTime.from_secs 123456789).add (DateTime.from_secs 234567890)).hour.1
      = some 19 ∧
    ((DateTime.from_secs 123456789).add (DateTime.from_secs 234567890)).minute.1
      = some 17 ∧
    ((DateTime.from_secs 123456789).add (DateTime.from_secs 234567890)).second.1
      = some 59 := by
  have hadd : (DateTime.from_secs 123456789).add (DateTime.from_secs 234567890)
      = DateTime.from_secs 358024679 := rfl
  refine ⟨fun a b => rfl, ?_, ?_, ?_, ?_, ?_, ?_, ?_⟩
  all_goals rw [hadd]
  all_goals
    simp only [year_unfold, month_unfold, day_unfold, date_unfold, hour_unfold,
      minute_unfold, second_unfold, from_secs_eval_358024679, Option.map_some']

/-- C7: the weekday field is computed directly from the original seconds
value `s` as index `((s / 86400) + 4) mod 7` into the Sunday-first list
of weekdays (0 = Sunday, ..., 6 = Saturday); in particular `s = 0`
(epoch day 0, 1970-01-01) resolves to Thursday. -/
theorem claim_C7 :
    (∀ (s : Nat) (c : DtCache),
      DtCache.from_secs s = some c → c.day = specWeekday s) ∧
    get_day 0 = some Day.Thursday ∧ specWeekday 0 = Day.Thursday := by
  refine ⟨?_, by decide, by decide⟩
  intro s c h
  rcases hY : yearLoop s 1970 with ⟨Y, r1⟩
  rcases hM : monthLoop (monthTable Y) r1 Month.January with ⟨M, r2⟩
  have hsome := from_secs_some s Y r1 M r2 (specWeekday s) hY hM (get_day_eq s)
  rw [h] at hsome
  have hc := Option.some.inj hsome
  subst hc
  rfl

/-- Witness for C7: the weekday equation instantiated at `s = 0`, whose
conversion resolves the weekday to Thursday. -/
theorem claim_C7_witness : Day.Thursday = specWeekday 0 :=
  claim_C7.1 0
    { year := 1970, month := Month.January, day := Day.Thursday,
      date := 1, hour := 0, minute := 0, second := 0 }
    from_secs_eval_0

/-- C8: the produced fields satisfy the documented bounds — year at
least 1970; day-of-month in `[1, length of the resolved month]`, where
February has 29 days exactly in leap years under the
400/100/4-divisibility rule; hour in `[0, 23]`; minute and second in
`[0, 59]`. -/
theorem claim_C8 (s : Nat) (c : DtCache) (h : DtCache.from_secs s = some c) :
    1970 ≤ c.year ∧
    1 ≤ c.date ∧ c.date ≤ days_in_month c.year c.month ∧
    c.hour ≤ 23 ∧ c.minute ≤ 59 ∧ c.second ≤ 59 ∧
    days_in_month c.year Month.February = (if is_leap_year c.year then 29 else 28) ∧
    (is_leap_year c.year = true ↔
      (c.year % 400 = 0 ∨ (c.year % 100 ≠ 0 ∧ c.year % 4 = 0))) := by
  rcases hY : yearLoop s 1970 with ⟨Y, r1⟩
  rcases hM : monthLoop (monthTable Y) r1 Month.January with ⟨M, r2⟩
  have hsome := from_secs_some s Y r1 M r2 (specWeekday s) hY hM (get_day_eq s)
  rw [h] at hsome
  have hc := Option.some.inj hsome
  subst hc
  have hy2 := yearLoop_spec_eq s 1970 Y r1 hY
  have hx1 : r1 < listSecs (monthTable Y) := by
    rw [listSecs_monthTable]
    exact hy2.2.1
  obtain ⟨d, hmem, hpre, hlt⟩ :=
    monthLoop_spec_eq (monthTable Y) Month.January r1 M r2 hM (monthTable_nodup Y) hx1
  have hd := monthTable_days Y M d hmem
  subst hd
  refine ⟨hy2.2.2, by dsimp only; omega, ?_, by dsimp only; omega,
    by dsimp only; omega, by dsimp only; omega, rfl, is_leap_year_iff Y⟩
  dsimp only
  omega

/-- Witness for C8: the bounds instantiated at `s = 842282624` (fields
1996, September, day 9, 15:23:44). -/
theorem claim_C8_witness :
    1970 ≤ 1996 ∧
    1 ≤ 9 ∧ 9 ≤ days_in_month 1996 Month.September ∧
    15 ≤ 23 ∧ 23 ≤ 59 ∧ 44 ≤ 59 ∧
    days_in_month 1996 Month.February = (if is_leap_year 1996 then 29 else 28) ∧
    (is_leap_year 1996 = true ↔
      (1996 % 400 = 0 ∨ (1996 % 100 ≠ 0 ∧ 1996 % 4 = 0))) :=
  claim_C8 842282624
    { year := 1996, month := Month.September, day := Day.Monday,
      date := 9, hour := 15, minute := 23, second := 44 }
    from_secs_eval_842282624

/-- C9: the index `((time / 86400) + 4) % 7` computed inside `get_day`
always lies below 7, so the match selects one of the seven named
weekdays and the `unreachable!()` arm is never executed — `get_day`
never panics. -/
theorem claim_C9 (time : Nat) :
    (time / 24 / 60 / 60 + 4) % 7 < 7 ∧ ∃ d : Day, get_day time = some d :=
  ⟨Nat.mod_lt _ (by omega), specWeekday time, get_day_eq time⟩

/-- C10: `DtCache::from_secs` terminates on every input — each
non-breaking iteration of the year loop subtracts at least
`365 * 86400` seconds (a positive amount, so the remaining count
strictly decreases until the strict `<` test fires), and the conversion
as a whole always produces a result. -/
theorem claim_C10 :
    (∀ year : Nat, 365 * 86400 ≤ secPerYear year) ∧
    (∀ x year : Nat, x < secPerYear year ∨ x - secPerYear year < x) ∧
    (∀ s : Nat, ∃ c : DtCache, DtCache.from_secs s = some c) := by
  refine ⟨secPerYear_ge, ?_, from_secs_total⟩
  intro x year
  have h1 := secPerYear_pos year
  omega
